import Mathlib

/-!
Verification development for the rolling-mill product-changeover dashboard
(src/app.py).  The Python functions that the claims are about are embedded
shallowly below, keeping their source names:

  * comparar_productos        (app.py lines 101-140)
  * comparar_desbaste         (app.py lines 142-234)
  * obtener_tiempo_cambio     (app.py lines 236-251)
  * agrupar_cambios_consecutivos (app.py lines 253-288)
  * tiempo_cambio_manual      (the reverse-lookup fallback inlined in
                               mostrar_comparacion_productos, lines 482-486)
  * resumen_secuencia / mostrar_secuencia_programa (lines 564-623)

Pandas dataframes are modelled as lists of records.  A scalar cell is
`Option Val`: `none` plays the role of the pandas nulls (None / NaN, i.e.
everything `pd.isna` accepts), `some (Val.num q)` a numeric value and
`some (Val.str s)` a text value.
-/

/-- Scalar value of a spreadsheet cell that is not null: a number or a text. -/
inductive Val where
  | num (q : Rat)
  | str (s : String)
deriving DecidableEq

/-- Python inequality `a != b` on two possibly-null scalars, as used by the
comparison code.  In Python `nan != x` and `nan != nan` are both true, and a
row that is absent contributes `None`, for which `None != x` is true unless
`x` is `None` itself; the source only evaluates this when not both operands
are null, where the two notions of null agree, so both nulls are merged into
`none` here and `none` is unequal to everything (including `none`, matching
the NaN case that is the only both-null case the source can reach outside the
skip guard). -/
def pyNe : Option Val → Option Val → Bool
  | some a, some b => decide (a ≠ b)
  | _, _ => true

/-- One row of the product catalogue (`Consolidado_Laminador.xlsx`): product
id, family id, position code (column `STD`) and the remaining attribute cells
as an association list.  A column absent from the list is a null cell. -/
structure Row where
  producto : String
  familia : String
  std : String
  cells : List (String × Val)
deriving DecidableEq

/-- A catalogue dataframe: its column list (for `col in df.columns` checks)
and its rows. -/
structure DF where
  cols : List String
  rows : List Row
deriving DecidableEq

/-- Cell of row `r` at attribute column `c` (null when absent). -/
def Row.getCell (r : Row) (c : String) : Option Val :=
  r.cells.lookup c

/-- Value of `df[df["STD"] == pos][col].values[0]` guarded by the emptiness
check of app.py line 119/120: the first row whose position is `pos`, else
null. -/
def valor_en (df : DF) (pos col : String) : Option Val :=
  match df.rows.find? (fun r => r.std = pos) with
  | none => none
  | some r => r.getCell col

/-- Strict lexicographic comparison of two character lists by code point:
the order Python uses on strings. -/
def lexLt : List Char → List Char → Bool
  | _, [] => false
  | [], _ :: _ => true
  | c :: cs, d :: ds =>
    if c.toNat < d.toNat then true
    else if d.toNat < c.toNat then false
    else lexLt cs ds

/-- Python string comparison `a < b` (lexicographic by code point). -/
def strLtB (a b : String) : Bool := lexLt a.data b.data

/-- Insert a position code into a strictly sorted (hence duplicate-free) list,
keeping it strictly sorted.  Folding it over a list computes
`sorted(set(l))` of app.py line 108. -/
def insertPos (x : String) : List String → List String
  | [] => [x]
  | y :: ys =>
      if x = y then y :: ys
      else if strLtB x y then x :: y :: ys
      else y :: insertPos x ys

/-- `sorted(set(l))` for position codes: lexicographically sorted list of the
distinct members of `l`. -/
def sortedUnion (l : List String) : List String :=
  l.foldr insertPos []

/-- `sorted(set(df_a["STD"]).union(df_b["STD"]))` of app.py line 108. -/
def posiciones (dfa dfb : DF) : List String :=
  sortedUnion (dfa.rows.map (·.std) ++ dfb.rows.map (·.std))

/-- One output row of `comparar_productos`.  `valorA`/`valorB` keep the raw
values; `none` is rendered "-" by the source (line 135/136). -/
structure CmpRow where
  posicion : String
  componente : String
  valorA : Option Val
  valorB : Option Val
  cambia : Bool
deriving DecidableEq

/-- Body of the inner loop of `comparar_productos` (app.py lines 114-138) for
one `(pos, col)` pair: `none` when the pair is skipped (column missing from
either dataframe, or both values null), otherwise the emitted row. -/
def fila_comparada (dfa dfb : DF) (pos col : String) : Option CmpRow :=
  if col ∈ dfa.cols ∧ col ∈ dfb.cols then
    if valor_en dfa pos col = none ∧ valor_en dfb pos col = none then none
    else some ⟨pos, col, valor_en dfa pos col, valor_en dfb pos col,
               pyNe (valor_en dfa pos col) (valor_en dfb pos col)⟩
  else none

/-- `comparar_productos` (app.py lines 101-140): positional diff of two
product row sets over an attribute list. -/
def comparar_productos (dfa dfb : DF) (columnas : List String) : List CmpRow :=
  if dfa.rows.isEmpty || dfb.rows.isEmpty then []
  else
    (posiciones dfa dfb).flatMap fun pos =>
      columnas.filterMap fun col => fila_comparada dfa dfb pos col

/-- Number of output rows carrying a given (position, attribute) pair. -/
def countPair (l : List CmpRow) (pos col : String) : Nat :=
  (l.filter fun r => decide (r.posicion = pos ∧ r.componente = col)).length

/-- Swap the two value columns of an output row (what comparing in the
reversed order does to a row, per claim C8). -/
def swapValores (r : CmpRow) : CmpRow :=
  ⟨r.posicion, r.componente, r.valorB, r.valorA, r.cambia⟩

/-- Key of a row that is marked as changed, else `none`. -/
def cambioKey (r : CmpRow) : Option (String × String) :=
  if r.cambia then some (r.posicion, r.componente) else none

/-- Product A of the worked example of the specification: a single row at
position "M1" whose attribute "Código Canal" is the text "12". -/
def exM1A : DF :=
  ⟨["Código Canal"], [⟨"A", "FamA", "M1", [("Código Canal", .str "12")]⟩]⟩

/-- Product B of the worked example: non-empty, but with no "M1" row and a
null "Código Canal" cell at its only position "M2". -/
def exM1B : DF :=
  ⟨["Código Canal"], [⟨"B", "FamB", "M2", []⟩]⟩

/-- One row of the groove-diagram table (`Diagrama_Desbaste.xlsx`): family,
sub-position code (column `SubSTD`), component name (column
`Componente limpio`) and the raw cell of column `Valor` (null = NaN). -/
structure GRow where
  familia : String
  subSTD : String
  componente : String
  valor : Option Val
deriving DecidableEq

/-- The groove dataframe: column list plus rows. -/
structure GDF where
  cols : List String
  rows : List GRow
deriving DecidableEq

/-- Python `str.strip()`: drop whitespace from both ends. -/
def pyStrip (s : String) : String :=
  ⟨((s.data.dropWhile fun c => c.isWhitespace).reverse.dropWhile
      fun c => c.isWhitespace).reverse⟩

/-- Digit test for `0`..`9`. -/
def allDigits (l : List Char) : Bool :=
  l.all fun c => decide ('0' ≤ c) && decide (c ≤ '9')

/-- Numeric value of a digit list (most significant first). -/
def natOfDigits (l : List Char) : Nat :=
  l.foldl (fun n c => 10 * n + (c.toNat - 48)) 0

/-- Python `float(s)` restricted to plain decimal notation (optional sign,
integer digits, optional fractional digits), which is the shape of the
numeric cells the application compares; other accepted spellings of floats
(exponents, infinities) do not occur in this data and are treated as
non-numeric text. -/
def parseFloat (s : String) : Option Rat :=
  let (sg, body) : Int × List Char :=
    match s.data with
    | '-' :: r => (-1, r)
    | '+' :: r => (1, r)
    | l => (1, l)
  let ip := body.takeWhile fun c => decide (c ≠ '.')
  match body.dropWhile fun c => decide (c ≠ '.') with
  | [] =>
      if ip.isEmpty || !allDigits ip then none
      else some (mkRat (sg * natOfDigits ip) 1)
  | _ :: fp =>
      if (ip.isEmpty && fp.isEmpty) || !allDigits ip || !allDigits fp
         || fp.any (fun c => decide (c = '.')) then none
      else some (mkRat (sg * (natOfDigits ip * 10 ^ fp.length + natOfDigits fp))
                       (10 ^ fp.length))

/-- `limpiar_valor` (app.py lines 169-178): null stays null; any other value
is rendered as text, stripped, and coerced to a number when the text parses
as one.  For a value that is already a number, the Python detour through
`str` and `float` is the identity (`float(str(x)) == x` for floats), so
numbers are returned unchanged. -/
def limpiar_valor : Option Val → Option Val
  | none => none
  | some (.num q) => some (.num q)
  | some (.str s) =>
      match parseFloat (pyStrip s) with
      | some q => some (.num q)
      | none => some (.str (pyStrip s))

/-- Python `str` of a scalar, as used for the display columns of
`comparar_desbaste` (lines 218-219).  Integral numbers print as Python
floats do ("12.0"); the non-integral case falls back to the Lean rendering
of the rational, a harmless approximation of float repr that no claim
depends on. -/
def pyToString : Val → String
  | .str s => s
  | .num q => if q.den = 1 then toString q.num ++ ".0" else toString q

/-- Display column of `comparar_desbaste` for one side: `"-"` when no row
matched (the Python `None`), `str(...)` of the raw cell otherwise; a NaN
cell of a matched row prints as "nan", exactly as `str(nan)` does. -/
def mostrar_original : Option GRow → String
  | none => "-"
  | some r =>
      match r.valor with
      | none => "nan"
      | some v => pyToString v

/-- Family filter of app.py lines 152-160: the sentinel "(Todos)" keeps the
whole table. -/
def filas_familia (gdf : GDF) (fam : String) : List GRow :=
  if fam = "(Todos)" then gdf.rows else gdf.rows.filter fun r => r.familia = fam

/-- First row of a (filtered) groove table at a (sub-position, component)
key, mirroring `val_a_df ... .iloc[0]` (lines 192-201). -/
def fila_en (rows : List GRow) (sub comp : String) : Option GRow :=
  rows.find? fun r => decide (r.subSTD = sub ∧ r.componente = comp)

/-- Cleaned value of the first matching row (`Valor_limpio`), null when no
row matches. -/
def valor_limpio_en (rows : List GRow) (sub comp : String) : Option Val :=
  (fila_en rows sub comp).bind fun r => limpiar_valor r.valor

/-- Python comparison of (sub-position, component) tuples: lexicographic on
the two strings. -/
def pairLtB (p q : String × String) : Bool :=
  strLtB p.1 q.1 || (p.1 == q.1 && strLtB p.2 q.2)

/-- Insert into a strictly sorted duplicate-free list of key pairs. -/
def insertPar (x : String × String) :
    List (String × String) → List (String × String)
  | [] => [x]
  | y :: ys =>
      if x = y then y :: ys
      else if pairLtB x y then x :: y :: ys
      else y :: insertPar x ys

/-- `sorted(pares_a.union(pares_b))` of app.py line 187: sorted distinct key
pairs. -/
def pares_ordenados (l : List (String × String)) : List (String × String) :=
  l.foldr insertPar []

/-- One output row of `comparar_desbaste` (lines 215-221); here the display
columns really are strings, produced by `str`. -/
structure DCmpRow where
  posicion : String
  componente : String
  valorA : String
  valorB : String
  cambia : Bool
deriving DecidableEq

/-- `comparar_desbaste` (app.py lines 142-234): groove-diagram diff between
two families.  Identical families short-circuit to an empty result; a table
missing one of the required columns is logged and yields an empty result. -/
def comparar_desbaste (gdf : GDF) (famA famB : String) : List DCmpRow :=
  if famA = famB then []
  else
    let desbA := filas_familia gdf famA
    let desbB := filas_familia gdf famB
    if ¬ ("SubSTD" ∈ gdf.cols ∧ "Componente limpio" ∈ gdf.cols ∧
          "Valor" ∈ gdf.cols) then []
    else
      (pares_ordenados
        ((desbA.map fun r => (r.subSTD, r.componente)) ++
         (desbB.map fun r => (r.subSTD, r.componente)))).filterMap fun pq =>
        let la := valor_limpio_en desbA pq.1 pq.2
        let lb := valor_limpio_en desbB pq.1 pq.2
        if la = none ∧ lb = none then none
        else some ⟨pq.1, pq.2,
                   mostrar_original (fila_en desbA pq.1 pq.2),
                   mostrar_original (fila_en desbB pq.1 pq.2),
                   if la = none ∨ lb = none then true else decide (la ≠ lb)⟩

/-- One row of the changeover-time table (`BBDD_Tiempo.xlsx`): origin id,
destination id and the `Minutos Cambio` value. -/
structure TRow where
  origen : String
  destino : String
  minutos : Val
deriving DecidableEq

/-- The time dataframe: column list plus rows. -/
structure TDF where
  cols : List String
  rows : List TRow
deriving DecidableEq

/-- `obtener_tiempo_cambio` (app.py lines 236-251): directional exact-match
lookup.  A table missing one of the required columns yields null; otherwise
the `Minutos Cambio` of the first row matching (origin, destination), null
when none matches. -/
def obtener_tiempo_cambio (tt : TDF) (o d : String) : Option Val :=
  if ¬ ("Nombre STD Origen" ∈ tt.cols ∧ "Nombre STD Destino" ∈ tt.cols ∧
        "Minutos Cambio" ∈ tt.cols) then none
  else
    match tt.rows.find? (fun r => decide (r.origen = o ∧ r.destino = d)) with
    | some r => some r.minutos
    | none => none

/-- The symmetric changeover time the manual comparison page computes
(app.py lines 482-486): the forward lookup, and the reverse lookup when the
forward one found nothing. -/
def tiempo_cambio_manual (tt : TDF) (a b : String) : Option Val :=
  match obtener_tiempo_cambio tt a b with
  | some v => some v
  | none => obtener_tiempo_cambio tt b a

/-- One transition record of the sequence analysis (app.py lines 609-616). -/
structure TransRow where
  secuencia : Nat
  familia : String
  origen : String
  destino : String
  tiempo : Option Val
  cambiosCanal : Nat
deriving DecidableEq

/-- Family label of a product (app.py lines 602-607): the `Familia` of its
first catalogue row, "N/A" when the product has no catalogue entry. -/
def familia_de (ddp : DF) (p : String) : String :=
  match ddp.rows.find? (fun r => r.producto = p) with
  | some r => r.familia
  | none => "N/A"

/-- Count of changed `Código Canal` attributes between two products
(app.py lines 586-599): rows of the origin product whose position also
occurs in the destination product and whose `Código Canal` cells differ
under Python `!=` (a NaN on either side counts as different). -/
def cambios_codigo_canal (ddp : DF) (o d : String) : Nat :=
  let dfa := ddp.rows.filter fun r => r.producto = o
  let dfb := ddp.rows.filter fun r => r.producto = d
  if dfa.isEmpty || dfb.isEmpty || !decide ("Código Canal" ∈ ddp.cols) then 0
  else
    (dfa.filter fun ra =>
      match dfb.find? (fun rb => rb.std = ra.std) with
      | none => false
      | some rb => pyNe (ra.getCell "Código Canal") (rb.getCell "Código Canal")).length

/-- The transition list built by `mostrar_secuencia_programa` before
grouping (app.py lines 572-616): for every adjacent program pair with
distinct products, a record with the 1-based sequence index, the family
labels, the directional changeover time and the channel-code change count. -/
def resumen_secuencia (ddp : DF) (tt : TDF) (prog : List String) :
    List TransRow :=
  ((prog.zip prog.tail).enum).filterMap fun x =>
    if x.2.1 = x.2.2 then none
    else some ⟨x.1 + 1, familia_de ddp x.2.1 ++ " → " ++ familia_de ddp x.2.2,
               x.2.1, x.2.2, obtener_tiempo_cambio tt x.2.1 x.2.2,
               cambios_codigo_canal ddp x.2.1 x.2.2⟩

/-- Whether two transitions have the same (origin, destination), the
grouping key of `agrupar_cambios_consecutivos` (app.py line 266). -/
def mismaTransicion (a b : TransRow) : Bool :=
  a.origen == b.origen && a.destino == b.destino

/-- Run-collapsing core of `agrupar_cambios_consecutivos`: `t` is the first
row of the current group; rows repeating its key are dropped, a row with a
new key starts the next group. -/
def agruparAux : TransRow → List TransRow → List TransRow
  | t, [] => [t]
  | t, u :: us => if mismaTransicion t u then agruparAux t us else t :: agruparAux u us

/-- `agrupar_cambios_consecutivos` (app.py lines 253-288): collapse every
maximal run of consecutive rows sharing (origin, destination) into its first
row (the pandas `groupby(cumsum).agg("first")`). -/
def agrupar_cambios_consecutivos : List TransRow → List TransRow
  | [] => []
  | t :: ts => agruparAux t ts

/-- The grouped sequence summary shown by `mostrar_secuencia_programa`
(app.py line 623). -/
def mostrar_secuencia_programa (ddp : DF) (tt : TDF) (prog : List String) :
    List TransRow :=
  agrupar_cambios_consecutivos (resumen_secuencia ddp tt prog)

/-- Failing input of claim C2, product A side: rows at positions "A1" and
"M10". -/
def exC2A : DF :=
  ⟨["c"], [⟨"PA", "F", "A1", [("c", .str "1")]⟩,
           ⟨"PA", "F", "M10", [("c", .str "2")]⟩]⟩

/-- Failing input of claim C2, product B side: rows at positions "DU" and
"M2". -/
def exC2B : DF :=
  ⟨["c"], [⟨"PB", "G", "DU", [("c", .str "3")]⟩,
           ⟨"PB", "G", "M2", [("c", .str "4")]⟩]⟩

/-- Failing input of claim C3: family "F" has groove rows at sub-positions
"D2", "D10" and "A9"; family "G" has one at "D2". -/
def gOrden : GDF :=
  ⟨["SubSTD", "Componente limpio", "Valor"],
   [⟨"F", "D2", "c", some (.num 1)⟩,
    ⟨"F", "D10", "c", some (.num 2)⟩,
    ⟨"F", "A9", "c", some (.num 5)⟩,
    ⟨"G", "D2", "c", some (.num 3)⟩]⟩

/-- Concrete input of claim C10: the two families hold the values
`" 12 "` (text with spaces) and `12.0` (number) at the same key. -/
def gEx : GDF :=
  ⟨["SubSTD", "Componente limpio", "Valor"],
   [⟨"F", "D1", "c", some (.str " 12 ")⟩,
    ⟨"G", "D1", "c", some (.num 12)⟩]⟩

/-- Time table of the fallback example: only the direction
X100 → Y200 is recorded, with 45 minutes. -/
def ttRev : TDF :=
  ⟨["Nombre STD Origen", "Nombre STD Destino", "Minutos Cambio"],
   [⟨"X100", "Y200", .num 45⟩]⟩

/-- Time table with a duplicated (A, B) pair and a reverse (B, A) row,
exercising the first-match rule of claim C7. -/
def ttDup : TDF :=
  ⟨["Nombre STD Origen", "Nombre STD Destino", "Minutos Cambio"],
   [⟨"A", "B", .num 45⟩, ⟨"A", "B", .num 60⟩, ⟨"B", "A", .num 30⟩]⟩

/-- Structurally broken time table of claim C9: it has data rows but lacks
the required columns. -/
def ttBad : TDF :=
  ⟨["foo"], [⟨"A", "B", .num 45⟩]⟩

/-- Structurally broken groove table of claim C9: data rows with differing
values, but the required columns are missing. -/
def gBad : GDF :=
  ⟨["SubSTD"],
   [⟨"F", "D1", "c", some (.num 1)⟩, ⟨"G", "D1", "c", some (.num 2)⟩]⟩

/-- Empty product catalogue. -/
def dfVacio : DF := ⟨[], []⟩

/-- Empty time table (it also lacks the required columns, so every lookup in
it is null). -/
def ttVacio : TDF := ⟨[], []⟩

/-! Order facts for the lexicographic comparison, used to reason about the
`sorted(set(...))` embeddings. -/

theorem lexLt_irrefl : ∀ l : List Char, lexLt l l = false
  | [] => rfl
  | c :: cs => by simp [lexLt, lexLt_irrefl cs]

theorem lexLt_asymm : ∀ a b : List Char, lexLt a b = true → lexLt b a = false
  | _, [], h => by simp [lexLt] at h
  | [], _ :: _, _ => rfl
  | c :: cs, d :: ds, h => by
      simp only [lexLt] at h ⊢
      by_cases h3 : c.toNat < d.toNat
      · rw [if_neg (by omega), if_pos h3]
      · by_cases h4 : d.toNat < c.toNat
        · rw [if_neg h3, if_pos h4] at h
          exact absurd h (by simp)
        · rw [if_neg h3, if_neg h4] at h
          rw [if_neg h4, if_neg h3]
          exact lexLt_asymm cs ds h

theorem lexLt_trans :
    ∀ a b c : List Char, lexLt a b = true → lexLt b c = true → lexLt a c = true
  | _, _, [], _, h2 => by simp [lexLt] at h2
  | _, [], _ :: _, h1, _ => by simp [lexLt] at h1
  | [], _ :: _, _ :: _, _, _ => rfl
  | a :: as, b :: bs, c :: cs, h1, h2 => by
      simp only [lexLt] at h1 h2 ⊢
      by_cases hab : a.toNat < b.toNat
      · by_cases hbc : b.toNat < c.toNat
        · rw [if_pos (by omega)]
        · by_cases hcb : c.toNat < b.toNat
          · rw [if_neg hbc, if_pos hcb] at h2
            exact absurd h2 (by simp)
          · rw [if_pos (by omega)]
      · by_cases hba : b.toNat < a.toNat
        · rw [if_neg hab, if_pos hba] at h1
          exact absurd h1 (by simp)
        · rw [if_neg hab, if_neg hba] at h1
          by_cases hbc : b.toNat < c.toNat
          · rw [if_pos (by omega)]
          · by_cases hcb : c.toNat < b.toNat
            · rw [if_neg hbc, if_pos hcb] at h2
              exact absurd h2 (by simp)
            · rw [if_neg hbc, if_neg hcb] at h2
              rw [if_neg (by omega), if_neg (by omega)]
              exact lexLt_trans as bs cs h1 h2

theorem lexLt_total :
    ∀ a b : List Char, lexLt a b = false → lexLt b a = false → a = b
  | [], [], _, _ => rfl
  | [], _ :: _, h1, _ => by simp [lexLt] at h1
  | _ :: _, [], _, h2 => by simp [lexLt] at h2
  | a :: as, b :: bs, h1, h2 => by
      simp only [lexLt] at h1 h2
      by_cases h3 : a.toNat < b.toNat
      · rw [if_pos h3] at h1
        exact absurd h1 (by simp)
      · by_cases h4 : b.toNat < a.toNat
        · rw [if_pos h4] at h2
          exact absurd h2 (by simp)
        · rw [if_neg h3, if_neg h4] at h1
          rw [if_neg h4, if_neg h3] at h2
          have hab : a = b := by
            have hn : a.toNat = b.toNat := by omega
            have := congrArg Char.ofNat hn
            rwa [Char.ofNat_toNat, Char.ofNat_toNat] at this
          rw [hab, lexLt_total as bs h1 h2]

theorem strLt_irrefl (a : String) : strLtB a a = false := lexLt_irrefl _

theorem strLt_asymm {a b : String} (h : strLtB a b = true) : strLtB b a = false :=
  lexLt_asymm _ _ h

theorem strLt_trans {a b c : String} (h1 : strLtB a b = true)
    (h2 : strLtB b c = true) : strLtB a c = true :=
  lexLt_trans _ _ _ h1 h2

theorem strLt_total {a b : String} (h1 : strLtB a b = false)
    (h2 : strLtB b a = false) : a = b := by
  cases a with
  | mk la =>
    cases b with
    | mk lb => exact congrArg String.mk (lexLt_total la lb h1 h2)

theorem strLt_of_ne_of_not_lt {a b : String} (hne : a ≠ b)
    (h : strLtB a b = false) : strLtB b a = true := by
  cases hlt : strLtB b a with
  | true => rfl
  | false => exact absurd (strLt_total h hlt) hne

theorem strLt_ne {a b : String} (h : strLtB a b = true) : a ≠ b := by
  intro he
  subst he
  rw [strLt_irrefl] at h
  exact Bool.false_ne_true h

/-! Facts about the sorted duplicate-free union of position codes. -/

theorem mem_insertPos (x a : String) :
    ∀ l : List String, a ∈ insertPos x l ↔ a = x ∨ a ∈ l
  | [] => by simp [insertPos]
  | y :: ys => by
      simp only [insertPos]
      split_ifs with h1 h2
      · subst h1
        simp only [List.mem_cons]
        tauto
      · simp only [List.mem_cons]
      · simp only [List.mem_cons, mem_insertPos x a ys]
        tauto

theorem pairwise_insertPos (x : String) :
    ∀ {l : List String}, l.Pairwise (fun p q => strLtB p q = true) →
      (insertPos x l).Pairwise (fun p q => strLtB p q = true)
  | [], _ => List.pairwise_singleton _ _
  | y :: ys, h => by
      rcases List.pairwise_cons.mp h with ⟨hy, hys⟩
      simp only [insertPos]
      split_ifs with h1 h2
      · exact h
      · refine List.Pairwise.cons ?_ h
        intro b hb
        rcases List.mem_cons.mp hb with hb | hb
        · subst hb; exact h2
        · exact strLt_trans h2 (hy b hb)
      · refine List.Pairwise.cons ?_ (pairwise_insertPos x hys)
        intro b hb
        rcases (mem_insertPos x b ys).mp hb with hb | hb
        · subst hb
          exact strLt_of_ne_of_not_lt h1 (Bool.of_not_eq_true h2)
        · exact hy b hb

theorem sortedUnion_pairwise :
    ∀ l : List String, (sortedUnion l).Pairwise (fun p q => strLtB p q = true)
  | [] => List.Pairwise.nil
  | x :: xs => pairwise_insertPos x (sortedUnion_pairwise xs)

theorem mem_sortedUnion (a : String) :
    ∀ l : List String, a ∈ sortedUnion l ↔ a ∈ l
  | [] => Iff.rfl
  | x :: xs => by
      show a ∈ insertPos x (sortedUnion xs) ↔ _
      rw [mem_insertPos, mem_sortedUnion a xs, List.mem_cons]

theorem sortedUnion_nodup (l : List String) : (sortedUnion l).Nodup :=
  (sortedUnion_pairwise l).imp fun h => strLt_ne h

theorem sorted_eq_of_mem_iff :
    ∀ l₁ l₂ : List String,
      l₁.Pairwise (fun p q => strLtB p q = true) →
      l₂.Pairwise (fun p q => strLtB p q = true) →
      (∀ a, a ∈ l₁ ↔ a ∈ l₂) → l₁ = l₂
  | [], [], _, _, _ => rfl
  | [], y :: _, _, _, hm => by
      have := (hm y).mpr (List.mem_cons_self y _)
      simp at this
  | x :: _, [], _, _, hm => by
      have := (hm x).mp (List.mem_cons_self x _)
      simp at this
  | x :: xs, y :: ys, h1, h2, hm => by
      rcases List.pairwise_cons.mp h1 with ⟨hx, hxs⟩
      rcases List.pairwise_cons.mp h2 with ⟨hy, hys⟩
      have hxy : x = y := by
        rcases List.mem_cons.mp ((hm x).mp (List.mem_cons_self x xs)) with h | h
        · exact h
        · rcases List.mem_cons.mp ((hm y).mpr (List.mem_cons_self y ys)) with h' | h'
          · exact h'.symm
          · have hyx := hy x h
            have hxy' := hx y h'
            have hf := strLt_asymm hxy'
            rw [hf] at hyx
            exact absurd hyx Bool.false_ne_true
      subst hxy
      have htails : ∀ a, a ∈ xs ↔ a ∈ ys := by
        intro a
        constructor
        · intro ha
          have hne : a ≠ x := fun he => by
            subst he
            have hc := hx a ha
            rw [strLt_irrefl] at hc
            exact Bool.false_ne_true hc
          rcases List.mem_cons.mp ((hm a).mp (List.mem_cons_of_mem x ha)) with h | h
          · exact absurd h hne
          · exact h
        · intro ha
          have hne : a ≠ x := fun he => by
            subst he
            have hc := hy a ha
            rw [strLt_irrefl] at hc
            exact Bool.false_ne_true hc
          rcases List.mem_cons.mp ((hm a).mpr (List.mem_cons_of_mem x ha)) with h | h
          · exact absurd h hne
          · exact h
      rw [sorted_eq_of_mem_iff xs ys hxs hys htails]

theorem posiciones_pairwise (dfa dfb : DF) :
    (posiciones dfa dfb).Pairwise (fun p q => strLtB p q = true) :=
  sortedUnion_pairwise _

theorem posiciones_nodup (dfa dfb : DF) : (posiciones dfa dfb).Nodup :=
  sortedUnion_nodup _

theorem mem_posiciones (dfa dfb : DF) (p : String) :
    p ∈ posiciones dfa dfb ↔
      (∃ r ∈ dfa.rows, r.std = p) ∨ (∃ r ∈ dfb.rows, r.std = p) := by
  unfold posiciones
  rw [mem_sortedUnion]
  simp [List.mem_append, List.mem_map]

theorem posiciones_comm (dfa dfb : DF) :
    posiciones dfb dfa = posiciones dfa dfb := by
  refine sorted_eq_of_mem_iff _ _ (posiciones_pairwise dfb dfa)
    (posiciones_pairwise dfa dfb) ?_
  intro a
  rw [mem_posiciones, mem_posiciones]
  exact Or.comm

/-! Dissection and counting lemmas for `comparar_productos`. -/

theorem fila_comparada_eq_some {dfa dfb : DF} {pos col : String} {r : CmpRow} :
    fila_comparada dfa dfb pos col = some r ↔
      (col ∈ dfa.cols ∧ col ∈ dfb.cols) ∧
      ¬(valor_en dfa pos col = none ∧ valor_en dfb pos col = none) ∧
      r = ⟨pos, col, valor_en dfa pos col, valor_en dfb pos col,
           pyNe (valor_en dfa pos col) (valor_en dfb pos col)⟩ := by
  unfold fila_comparada
  split_ifs with h1 h2 <;> simp_all [eq_comm]

theorem fila_comparada_isSome {dfa dfb : DF} {pos col : String} :
    (fila_comparada dfa dfb pos col).isSome = true ↔
      (col ∈ dfa.cols ∧ col ∈ dfb.cols) ∧
      ¬(valor_en dfa pos col = none ∧ valor_en dfb pos col = none) := by
  unfold fila_comparada
  split_ifs with h1 h2 <;> simp_all

theorem countPair_append (l₁ l₂ : List CmpRow) (pos col : String) :
    countPair (l₁ ++ l₂) pos col = countPair l₁ pos col + countPair l₂ pos col := by
  simp [countPair, List.filter_append]

theorem countPair_filterMap (dfa dfb : DF) (p : String) :
    ∀ cs : List String, cs.Nodup → ∀ pos col : String,
      countPair (cs.filterMap fun c => fila_comparada dfa dfb p c) pos col =
        if p = pos ∧ col ∈ cs ∧ (fila_comparada dfa dfb p col).isSome then 1 else 0
  | [], _, pos, col => by simp [countPair]
  | c :: cs, hnd, pos, col => by
      have hnd' := List.Nodup.of_cons hnd
      have hnotmem : c ∉ cs := (List.nodup_cons.mp hnd).1
      cases hfc : fila_comparada dfa dfb p c with
      | none =>
          rw [List.filterMap_cons_none hfc,
            countPair_filterMap dfa dfb p cs hnd' pos col]
          by_cases hcol : col = c
          · subst hcol
            simp [hnotmem, hfc]
          · simp [List.mem_cons, hcol]
      | some r =>
          rcases fila_comparada_eq_some.mp hfc with ⟨_, _, hr⟩
          rw [List.filterMap_cons_some hfc]
          have hcnt : countPair (r :: List.filterMap
              (fun c => fila_comparada dfa dfb p c) cs) pos col =
              (if r.posicion = pos ∧ r.componente = col then 1 else 0) +
              countPair (List.filterMap (fun c => fila_comparada dfa dfb p c) cs)
                pos col := by
            simp only [countPair, List.filter_cons]
            split_ifs with h <;> simp_all [Nat.add_comm]
          rw [hcnt, countPair_filterMap dfa dfb p cs hnd' pos col]
          by_cases hcol : col = c
          · subst hcol
            by_cases hp : p = pos
            · subst hp
              simp [hr, hnotmem, hfc]
            · simp [hr, hnotmem, hp]
          · simp only [hr]
            simp [List.mem_cons, hcol, Ne.symm hcol]

theorem countPair_flatMap (dfa dfb : DF) (cs : List String) (hcs : cs.Nodup) :
    ∀ ps : List String, ps.Nodup → ∀ pos col : String,
      countPair (ps.flatMap fun p => cs.filterMap fun c =>
          fila_comparada dfa dfb p c) pos col =
        if pos ∈ ps ∧ col ∈ cs ∧ (fila_comparada dfa dfb pos col).isSome
        then 1 else 0
  | [], _, pos, col => by simp [countPair]
  | p :: ps, hnd, pos, col => by
      have hnd' := List.Nodup.of_cons hnd
      have hnotmem : p ∉ ps := (List.nodup_cons.mp hnd).1
      rw [List.flatMap_cons, countPair_append,
        countPair_filterMap dfa dfb p cs hcs pos col,
        countPair_flatMap dfa dfb cs hcs ps hnd' pos col]
      by_cases hp : p = pos
      · subst hp
        simp [hnotmem]
      · simp [List.mem_cons, hp, Ne.symm hp]

theorem mem_comparar_productos {dfa dfb : DF} {cs : List String} {r : CmpRow} :
    r ∈ comparar_productos dfa dfb cs ↔
      dfa.rows.isEmpty = false ∧ dfb.rows.isEmpty = false ∧
      ∃ pos ∈ posiciones dfa dfb, ∃ col ∈ cs,
        fila_comparada dfa dfb pos col = some r := by
  unfold comparar_productos
  cases ha : dfa.rows.isEmpty <;> cases hb : dfb.rows.isEmpty <;>
    simp [List.mem_flatMap, List.mem_filterMap]

theorem pyNe_eq_true_iff {a b : Option Val} (h : ¬(a = none ∧ b = none)) :
    pyNe a b = true ↔
      (a = none ∧ b ≠ none) ∨ (a ≠ none ∧ b = none) ∨
      (∃ x y : Val, a = some x ∧ b = some y ∧ x ≠ y) := by
  cases a with
  | none =>
      cases b with
      | none => exact absurd ⟨rfl, rfl⟩ h
      | some y => simp [pyNe]
  | some x =>
      cases b with
      | none => simp [pyNe]
      | some y => simp [pyNe]

theorem pyNe_symm (a b : Option Val) : pyNe a b = pyNe b a := by
  cases a with
  | none => cases b <;> rfl
  | some x =>
      cases b with
      | none => rfl
      | some y =>
          simp only [pyNe]
          exact decide_eq_decide.mpr ne_comm

/-! Symmetry lemmas for `comparar_productos`. -/

theorem fila_comparada_swap (dfa dfb : DF) (pos col : String) :
    fila_comparada dfb dfa pos col =
      (fila_comparada dfa dfb pos col).map swapValores := by
  unfold fila_comparada
  by_cases h1 : col ∈ dfa.cols ∧ col ∈ dfb.cols
  · have h1' : col ∈ dfb.cols ∧ col ∈ dfa.cols := ⟨h1.2, h1.1⟩
    rw [if_pos h1', if_pos h1]
    by_cases h2 : valor_en dfa pos col = none ∧ valor_en dfb pos col = none
    · rw [if_pos ⟨h2.2, h2.1⟩, if_pos h2]
      rfl
    · have h2' : ¬(valor_en dfb pos col = none ∧ valor_en dfa pos col = none) :=
        fun hc => h2 ⟨hc.2, hc.1⟩
      rw [if_neg h2', if_neg h2]
      simp [swapValores, pyNe_symm]
  · have h1' : ¬(col ∈ dfb.cols ∧ col ∈ dfa.cols) := fun hc => h1 ⟨hc.2, hc.1⟩
    rw [if_neg h1', if_neg h1]
    rfl

theorem comparar_swap_inner (dfa dfb : DF) (p : String) (cs : List String) :
    (cs.filterMap fun col => fila_comparada dfb dfa p col) =
      ((cs.filterMap fun col => fila_comparada dfa dfb p col)).map swapValores := by
  induction cs with
  | nil => rfl
  | cons c cs ih =>
      cases hfc : fila_comparada dfa dfb p c with
      | none =>
          have h2 : fila_comparada dfb dfa p c = none := by
            rw [fila_comparada_swap, hfc]; rfl
          rw [List.filterMap_cons_none h2, List.filterMap_cons_none hfc, ih]
      | some r =>
          have h2 : fila_comparada dfb dfa p c = some (swapValores r) := by
            rw [fila_comparada_swap, hfc]; rfl
          rw [List.filterMap_cons_some h2, List.filterMap_cons_some hfc,
            List.map_cons, ih]

theorem comparar_swap_flat (dfa dfb : DF) (cs : List String) :
    ∀ ps : List String,
      (ps.flatMap fun pos => cs.filterMap fun col =>
        fila_comparada dfb dfa pos col) =
      ((ps.flatMap fun pos => cs.filterMap fun col =>
        fila_comparada dfa dfb pos col)).map swapValores
  | [] => rfl
  | p :: ps => by
      rw [List.flatMap_cons, List.flatMap_cons, List.map_append,
        comparar_swap_inner dfa dfb p cs, comparar_swap_flat dfa dfb cs ps]

/-- C1: for non-empty row sets, the positional comparator emits no row for a
(position, attribute) pair whose two sides are both null, exactly one row for
every other pair over the union of the position codes (and none outside it),
and flags a row as changed exactly when one side is null and the other is
not, or both are present with different values; in particular, on the worked
example (value "12" at position "M1" for A, no "M1" row for B) it emits the
single row (M1, Código Canal, "12", null, changed). -/
theorem spec_C1 (dfa dfb : DF) (columnas : List String)
    (ha : dfa.rows ≠ []) (hb : dfb.rows ≠ [])
    (hcols : ∀ c ∈ columnas, c ∈ dfa.cols ∧ c ∈ dfb.cols)
    (hnd : columnas.Nodup) :
    (∀ pos col : String,
      countPair (comparar_productos dfa dfb columnas) pos col =
        if pos ∈ posiciones dfa dfb ∧ col ∈ columnas ∧
           ¬(valor_en dfa pos col = none ∧ valor_en dfb pos col = none)
        then 1 else 0) ∧
    (∀ r ∈ comparar_productos dfa dfb columnas,
      r.cambia = true ↔
        (valor_en dfa r.posicion r.componente = none ∧
         valor_en dfb r.posicion r.componente ≠ none) ∨
        (valor_en dfa r.posicion r.componente ≠ none ∧
         valor_en dfb r.posicion r.componente = none) ∨
        (∃ x y : Val, valor_en dfa r.posicion r.componente = some x ∧
          valor_en dfb r.posicion r.componente = some y ∧ x ≠ y)) ∧
    comparar_productos exM1A exM1B ["Código Canal"] =
      [⟨"M1", "Código Canal", some (.str "12"), none, true⟩] := by
  have hea : dfa.rows.isEmpty = false := by
    cases hrows : dfa.rows with
    | nil => exact absurd hrows ha
    | cons x xs => rfl
  have heb : dfb.rows.isEmpty = false := by
    cases hrows : dfb.rows with
    | nil => exact absurd hrows hb
    | cons x xs => rfl
  refine ⟨?_, ?_, by decide⟩
  · intro pos col
    have hrw : comparar_productos dfa dfb columnas =
        (posiciones dfa dfb).flatMap fun p => columnas.filterMap fun c =>
          fila_comparada dfa dfb p c := by
      unfold comparar_productos
      rw [hea, heb]
      rfl
    rw [hrw, countPair_flatMap dfa dfb columnas hnd (posiciones dfa dfb)
      (posiciones_nodup dfa dfb) pos col]
    refine if_congr ?_ rfl rfl
    constructor
    · rintro ⟨hpos, hcol, hsome⟩
      exact ⟨hpos, hcol, (fila_comparada_isSome.mp hsome).2⟩
    · rintro ⟨hpos, hcol, hnn⟩
      exact ⟨hpos, hcol, fila_comparada_isSome.mpr ⟨hcols col hcol, hnn⟩⟩
  · intro r hr
    rcases mem_comparar_productos.mp hr with ⟨-, -, pos, hpos, col, hcol, hsome⟩
    rcases fila_comparada_eq_some.mp hsome with ⟨-, hnn, hrval⟩
    subst hrval
    exact pyNe_eq_true_iff hnn

/-- Witness for C1 at the worked example: the pair ("M1", "Código Canal")
appears exactly once, and a pair absent from both sides appears zero times. -/
theorem spec_C1_witness :
    countPair (comparar_productos exM1A exM1B ["Código Canal"])
      "M1" "Código Canal" = 1 ∧
    countPair (comparar_productos exM1A exM1B ["Código Canal"])
      "M2" "Código Canal" = 0 := by
  have h := spec_C1 exM1A exM1B ["Código Canal"] (by decide) (by decide)
    (by decide) (by decide)
  constructor
  · rw [h.1 "M1" "Código Canal"]
    decide
  · rw [h.1 "M2" "Código Canal"]
    decide

/-- C2 (code behaviour at the failing input): the comparator emits its rows
in plain lexicographic order of the position strings — "A1" before the
sentinel "DU", and "M10" before "M2" — contradicting the claimed
domain-specific order in which "DU" sorts first and "M2" precedes "M10". -/
theorem spec_C2 :
    (comparar_productos exC2A exC2B ["c"]).map (fun r => r.posicion) =
      ["A1", "DU", "M10", "M2"] := by decide

/-- C6: with an empty row set on either side the comparator returns the
empty result (it is a total function, so no error is possible). -/
theorem spec_C6 (dfa dfb : DF) (columnas : List String)
    (h : dfa.rows = [] ∨ dfb.rows = []) :
    comparar_productos dfa dfb columnas = [] := by
  unfold comparar_productos
  rcases h with h | h <;> simp [h]

/-- Witness for C6: an empty product A row set yields the empty result. -/
theorem spec_C6_witness : comparar_productos dfVacio exM1B ["c"] = [] :=
  spec_C6 dfVacio exM1B ["c"] (Or.inl rfl)

/-- C8: comparing (B, A) yields exactly the rows of comparing (A, B) with
the two value columns swapped; in particular the changed (position,
attribute) pairs coincide. -/
theorem spec_C8 (dfa dfb : DF) (columnas : List String) :
    comparar_productos dfb dfa columnas =
      (comparar_productos dfa dfb columnas).map swapValores ∧
    (comparar_productos dfb dfa columnas).filterMap cambioKey =
      (comparar_productos dfa dfb columnas).filterMap cambioKey := by
  have hmain : comparar_productos dfb dfa columnas =
      (comparar_productos dfa dfb columnas).map swapValores := by
    unfold comparar_productos
    by_cases ha : dfa.rows.isEmpty <;> by_cases hb : dfb.rows.isEmpty <;>
      simp only [ha, hb, Bool.false_or, Bool.or_false, Bool.true_or,
        Bool.or_true, if_true, if_false, List.map_nil]
    rw [posiciones_comm]
    exact comparar_swap_flat dfa dfb columnas (posiciones dfa dfb)
  refine ⟨hmain, ?_⟩
  rw [hmain, List.filterMap_map]
  rfl

/-- C3 (code behaviour at the failing input): the groove comparator emits
its rows in plain lexicographic order of the (sub-position, component)
strings — "A9" before "D10" before "D2" — contradicting the claimed numeric
order of the "D<n>" codes ("D2" before "D10") with non-matching keys last. -/
theorem spec_C3 :
    (comparar_desbaste gOrden "F" "G").map (fun r => r.posicion) =
      ["A9", "D10", "D2"] := by decide

/-- C7: the changeover lookup (with its required columns present) returns
the minutes of the first row matching (origin, destination) exactly — also
when several rows match — and null when no row matches, regardless of any
reverse-direction rows; being a total function, it cannot crash. -/
theorem spec_C7 (tt : TDF) (o d : String)
    (hcols : "Nombre STD Origen" ∈ tt.cols ∧ "Nombre STD Destino" ∈ tt.cols ∧
      "Minutos Cambio" ∈ tt.cols) :
    (∀ (pre : List TRow) (r : TRow) (post : List TRow),
      tt.rows = pre ++ r :: post →
      (∀ r2 ∈ pre, ¬(r2.origen = o ∧ r2.destino = d)) →
      r.origen = o → r.destino = d →
      obtener_tiempo_cambio tt o d = some r.minutos) ∧
    ((∀ r ∈ tt.rows, ¬(r.origen = o ∧ r.destino = d)) →
      obtener_tiempo_cambio tt o d = none) := by
  constructor
  · intro pre r post hrows hpre ho hd
    unfold obtener_tiempo_cambio
    rw [if_neg (not_not_intro hcols), hrows]
    have h1 : pre.find? (fun r2 => decide (r2.origen = o ∧ r2.destino = d)) =
        none := by
      rw [List.find?_eq_none]
      intro x hx
      simpa using hpre x hx
    rw [List.find?_append, h1,
      List.find?_cons_of_pos _ (by simp [ho, hd]), Option.none_or]
  · intro hnone
    unfold obtener_tiempo_cambio
    rw [if_neg (not_not_intro hcols)]
    have h1 : tt.rows.find? (fun r2 => decide (r2.origen = o ∧ r2.destino = d)) =
        none := by
      rw [List.find?_eq_none]
      intro x hx
      simpa using hnone x hx
    rw [h1]

/-- Witness for C7 on a table with duplicated (A, B) rows and a reverse
(B, A) row: the first (A, B) match wins, and a pair with only a reverse
entry yields null. -/
theorem spec_C7_witness :
    obtener_tiempo_cambio ttDup "A" "B" = some (.num 45) ∧
    obtener_tiempo_cambio ttDup "B" "C" = none := by
  constructor
  · exact (spec_C7 ttDup "A" "B" (by decide)).1 []
      ⟨"A", "B", .num 45⟩ [⟨"A", "B", .num 60⟩, ⟨"B", "A", .num 30⟩]
      rfl (by intro r2 hr2; cases hr2) rfl rfl
  · exact (spec_C7 ttDup "B" "C" (by decide)).2 (by decide)

/-- C5 (counterexample): with only the row (X100 → Y200, 45 minutes) in the
time table, the transition Y200 → X100 emitted by the sequence summarizer
carries a null time — while the manual comparison page does return 45 for
the same query via its reverse fallback — so not every caller applies the
reverse-direction fallback. -/
theorem spec_C5_counterexample :
    (mostrar_secuencia_programa dfVacio ttRev ["Y200", "X100"]).map
        (fun r => r.tiempo) = [none] ∧
    tiempo_cambio_manual ttRev "Y200" "X100" = some (.num 45) := by decide

/-- C5 (amended): the manual comparison combines the lookup with a
reverse-direction fallback — with no forward row and a reverse row present
it returns the minutes of the reverse row — whereas each transition emitted by
the sequence summarizer carries exactly the forward-only lookup result. -/
theorem spec_C5 :
    (∀ (tt : TDF) (a b : String) (rr : TRow),
      ("Nombre STD Origen" ∈ tt.cols ∧ "Nombre STD Destino" ∈ tt.cols ∧
        "Minutos Cambio" ∈ tt.cols) →
      (∀ r ∈ tt.rows, ¬(r.origen = a ∧ r.destino = b)) →
      tt.rows.find? (fun r => decide (r.origen = b ∧ r.destino = a)) = some rr →
      tiempo_cambio_manual tt a b = some rr.minutos) ∧
    (∀ (ddp : DF) (tt : TDF) (prog : List String),
      ∀ r ∈ resumen_secuencia ddp tt prog,
        r.tiempo = obtener_tiempo_cambio tt r.origen r.destino) := by
  constructor
  · intro tt a b rr hcols hfwd hrev
    have hab : obtener_tiempo_cambio tt a b = none :=
      (spec_C7 tt a b hcols).2 hfwd
    have hba : obtener_tiempo_cambio tt b a = some rr.minutos := by
      unfold obtener_tiempo_cambio
      rw [if_neg (not_not_intro hcols), hrev]
    unfold tiempo_cambio_manual
    rw [hab, hba]
  · intro ddp tt prog r hr
    rcases List.mem_filterMap.mp hr with ⟨x, hx, hfx⟩
    by_cases hod : x.2.1 = x.2.2
    · rw [if_pos hod] at hfx
      cases hfx
    · rw [if_neg hod] at hfx
      cases hfx
      rfl

/-- Witness for C5: the manual fallback returns 45 on the example table, and
the concrete summarizer transition carries the forward-only lookup result. -/
theorem spec_C5_witness :
    tiempo_cambio_manual ttRev "Y200" "X100" = some (.num 45) ∧
    (⟨1, "N/A → N/A", "Y200", "X100", none, 0⟩ : TransRow).tiempo =
      obtener_tiempo_cambio ttRev "Y200" "X100" := by
  constructor
  · exact (spec_C5).1 ttRev "Y200" "X100" ⟨"X100", "Y200", .num 45⟩
      (by decide) (by decide) (by decide)
  · exact (spec_C5).2 dfVacio ttRev ["Y200", "X100"] _ (by decide)

/-- C9 (counterexample): given tables that lack their required columns the
groove comparator returns the ordinary empty result and the time lookup
returns the ordinary null — exactly what a structurally sound empty table or
a plain lookup miss produces — instead of surfacing a structural error. -/
theorem spec_C9_counterexample :
    comparar_desbaste gBad "F" "G" = [] ∧
    comparar_desbaste ⟨["SubSTD", "Componente limpio", "Valor"], []⟩ "F" "G" = [] ∧
    obtener_tiempo_cambio ttBad "A" "B" = none ∧
    obtener_tiempo_cambio ttRev "A" "B" = none := by decide

/-- C9 (amended): a groove table missing a required column always yields the
empty result, and a time table missing a required column always yields null;
structural errors are indistinguishable from ordinary no-data results. -/
theorem spec_C9 :
    (∀ (gdf : GDF) (famA famB : String),
      ("SubSTD" ∉ gdf.cols ∨ "Componente limpio" ∉ gdf.cols ∨
       "Valor" ∉ gdf.cols) →
      comparar_desbaste gdf famA famB = []) ∧
    (∀ (tt : TDF) (o d : String),
      ("Nombre STD Origen" ∉ tt.cols ∨ "Nombre STD Destino" ∉ tt.cols ∨
       "Minutos Cambio" ∉ tt.cols) →
      obtener_tiempo_cambio tt o d = none) := by
  constructor
  · intro gdf famA famB h
    unfold comparar_desbaste
    by_cases hfam : famA = famB
    · rw [if_pos hfam]
    · rw [if_neg hfam, if_pos (by tauto)]
  · intro tt o d h
    unfold obtener_tiempo_cambio
    rw [if_pos (by tauto)]

/-- Witness for C9 at the broken example tables. -/
theorem spec_C9_witness :
    comparar_desbaste gBad "F" "G" = [] ∧
    obtener_tiempo_cambio ttBad "A" "B" = none :=
  ⟨(spec_C9).1 gBad "F" "G" (by decide), (spec_C9).2 ttBad "A" "B" (by decide)⟩

/-! Lemmas about the run-collapsing of consecutive identical transitions. -/

theorem agruparAux_head :
    ∀ (ts : List TransRow) (t : TransRow), (agruparAux t ts).head? = some t
  | [], _ => rfl
  | u :: us, t => by
      simp only [agruparAux]
      split_ifs with h
      · exact agruparAux_head us t
      · rfl

theorem agruparAux_sublist :
    ∀ (ts : List TransRow) (t : TransRow), (agruparAux t ts).Sublist (t :: ts)
  | [], t => List.Sublist.refl [t]
  | u :: us, t => by
      simp only [agruparAux]
      split_ifs with h
      · exact (agruparAux_sublist us t).trans
          (List.Sublist.cons₂ t (List.sublist_cons_self u us))
      · exact List.Sublist.cons₂ t (agruparAux_sublist us u)

theorem agruparAux_chain :
    ∀ (ts : List TransRow) (t : TransRow),
      List.Chain' (fun a b => mismaTransicion a b = false) (agruparAux t ts)
  | [], t => List.chain'_singleton t
  | u :: us, t => by
      simp only [agruparAux]
      split_ifs with h
      · exact agruparAux_chain us t
      · rw [List.chain'_cons']
        refine ⟨?_, agruparAux_chain us u⟩
        intro y hy
        rw [agruparAux_head us u, Option.mem_def, Option.some_inj] at hy
        subst hy
        exact Bool.of_not_eq_true h

theorem mismaTransicion_eq_false_iff (a b : TransRow) :
    mismaTransicion a b = false ↔
      ¬(a.origen = b.origen ∧ a.destino = b.destino) := by
  simp [mismaTransicion]

/-- C4: the sequence summarizer emits no transition whose origin equals its
destination (adjacent identical products are skipped); the grouping step
returns a selection of the original transition rows (so each reported block
is the first full record — index and metrics — of its run), adjacent
reported blocks never share (origin, destination), the first block is the
first transition, and the program [X, X, Y, Y, Y, X] produces exactly the
two blocks (X → Y) at sequence index 2 and (Y → X) at sequence index 5. -/
theorem spec_C4 :
    (∀ (ddp : DF) (tt : TDF) (prog : List String),
      ∀ r ∈ resumen_secuencia ddp tt prog, r.origen ≠ r.destino) ∧
    (∀ l : List TransRow, (agrupar_cambios_consecutivos l).Sublist l) ∧
    (∀ l : List TransRow,
      List.Chain' (fun a b => ¬(a.origen = b.origen ∧ a.destino = b.destino))
        (agrupar_cambios_consecutivos l)) ∧
    (∀ l : List TransRow, (agrupar_cambios_consecutivos l).head? = l.head?) ∧
    (mostrar_secuencia_programa dfVacio ttVacio
        ["X", "X", "Y", "Y", "Y", "X"]).map
      (fun r => (r.secuencia, r.origen, r.destino)) =
      [(2, "X", "Y"), (5, "Y", "X")] := by
  refine ⟨?_, ?_, ?_, ?_, by decide⟩
  · intro ddp tt prog r hr
    rcases List.mem_filterMap.mp hr with ⟨x, hx, hfx⟩
    by_cases hod : x.2.1 = x.2.2
    · rw [if_pos hod] at hfx
      cases hfx
    · rw [if_neg hod] at hfx
      cases hfx
      exact hod
  · intro l
    cases l with
    | nil => exact List.Sublist.refl []
    | cons t ts => exact agruparAux_sublist ts t
  · intro l
    cases l with
    | nil => exact List.chain'_nil
    | cons t ts =>
        exact (agruparAux_chain ts t).imp fun a b h =>
          (mismaTransicion_eq_false_iff a b).mp h
  · intro l
    cases l with
    | nil => rfl
    | cons t ts => exact agruparAux_head ts t

/-- Witness for C4: the single transition of the program [X, Y] has distinct
origin and destination. -/
theorem spec_C4_witness :
    (⟨1, "N/A → N/A", "X", "Y", none, 0⟩ : TransRow).origen ≠
      (⟨1, "N/A → N/A", "X", "Y", none, 0⟩ : TransRow).destino :=
  (spec_C4).1 dfVacio ttVacio ["X", "Y"]
    ⟨1, "N/A → N/A", "X", "Y", none, 0⟩ (by decide)

/-- C10: in the groove comparator a row is marked unchanged exactly when the
two cleaned values agree (and are not both null), where cleaning strips
whitespace and coerces numeric-looking text to numbers and leaves numbers
unchanged — so values differing only in whitespace or numeric formatting
compare as unchanged — while the displayed value columns keep the original
un-normalized cell renderings; on the concrete table with `" 12 "` (text)
versus `12.0` (number) the single output row is unchanged yet displays the
two distinct originals. -/
theorem spec_C10 :
    (∀ (gdf : GDF) (famA famB : String) (r : DCmpRow),
      r ∈ comparar_desbaste gdf famA famB →
      ((r.cambia = false ↔
        valor_limpio_en (filas_familia gdf famA) r.posicion r.componente =
          valor_limpio_en (filas_familia gdf famB) r.posicion r.componente ∧
        valor_limpio_en (filas_familia gdf famA) r.posicion r.componente ≠
          none) ∧
       r.valorA = mostrar_original
          (fila_en (filas_familia gdf famA) r.posicion r.componente) ∧
       r.valorB = mostrar_original
          (fila_en (filas_familia gdf famB) r.posicion r.componente))) ∧
    limpiar_valor (some (.str "12")) = some (.num 12) ∧
    limpiar_valor (some (.str " 12 ")) = some (.num 12) ∧
    (∀ q : Rat, limpiar_valor (some (.num q)) = some (.num q)) ∧
    comparar_desbaste gEx "F" "G" = [⟨"D1", "c", " 12 ", "12.0", false⟩] := by
  refine ⟨?_, by decide, by decide, fun q => rfl, by decide⟩
  intro gdf famA famB r hr
  unfold comparar_desbaste at hr
  by_cases hfam : famA = famB
  · rw [if_pos hfam] at hr
    cases hr
  · rw [if_neg hfam] at hr
    by_cases hcols : "SubSTD" ∈ gdf.cols ∧ "Componente limpio" ∈ gdf.cols ∧
        "Valor" ∈ gdf.cols
    · rw [if_neg (not_not_intro hcols)] at hr
      rcases List.mem_filterMap.mp hr with ⟨pq, hpq, hfx⟩
      by_cases hnn : valor_limpio_en (filas_familia gdf famA) pq.1 pq.2 = none ∧
          valor_limpio_en (filas_familia gdf famB) pq.1 pq.2 = none
      · rw [if_pos hnn] at hfx
        cases hfx
      · rw [if_neg hnn] at hfx
        cases hfx
        refine ⟨?_, rfl, rfl⟩
        show (if valor_limpio_en (filas_familia gdf famA) pq.1 pq.2 = none ∨
                 valor_limpio_en (filas_familia gdf famB) pq.1 pq.2 = none
              then true
              else decide (valor_limpio_en (filas_familia gdf famA) pq.1 pq.2 ≠
                valor_limpio_en (filas_familia gdf famB) pq.1 pq.2)) = false ↔ _
        split_ifs with h1
        · constructor
          · intro hc
            exact absurd hc (by simp)
          · rintro ⟨heq, hne⟩
            rcases h1 with h1 | h1
            · exact hne h1
            · exact hne (heq.trans h1)
        · push_neg at h1
          constructor
          · intro hc
            have hd : ¬(valor_limpio_en (filas_familia gdf famA) pq.1 pq.2 ≠
                valor_limpio_en (filas_familia gdf famB) pq.1 pq.2) := by
              simpa using hc
            exact ⟨not_not.mp hd, h1.1⟩
          · rintro ⟨heq, -⟩
            simp [heq]
    · rw [if_pos hcols] at hr
      cases hr

/-- Witness for C10 at the concrete table: its single row is unchanged, with
the cleaned values of both sides equal and non-null. -/
theorem spec_C10_witness :
    ((⟨"D1", "c", " 12 ", "12.0", false⟩ : DCmpRow).cambia = false ↔
      valor_limpio_en (filas_familia gEx "F") "D1" "c" =
        valor_limpio_en (filas_familia gEx "G") "D1" "c" ∧
      valor_limpio_en (filas_familia gEx "F") "D1" "c" ≠ none) ∧
    limpiar_valor (some (.num 45)) = some (.num 45) :=
  ⟨((spec_C10).1 gEx "F" "G" ⟨"D1", "c", " 12 ", "12.0", false⟩ (by decide)).1,
   (spec_C10).2.2.2.1 45⟩
